import Mathlib

/-!
Verification of the btidor/syntax Dockerfile frontend against its
natural-language specification.

The development shallowly embeds the relevant Go source files:

* `dockerfile/dockerfile2llb/convert_package.go` — the `ADD --apt` package
  extension (`aptRegex`, `ParseURIs`, `DownloadFiles`, `Dispatch`, `Run`);
* `dockerfile/instructions` (the instruction parser) — `parseAdd`,
  `parseBuildStageName`, `parseOptInterval`, `parseHealthcheck`,
  `parseExpose`.

Go regular expressions are modelled by a small backtracking matcher with
leftmost-first (Perl-style) semantics, the semantics Go's `regexp` package
documents for submatch extraction.  Strings are modelled as `List Char`
(Go strings are compared and matched rune-wise here; all constants involved
are ASCII, where byte order and rune order coincide).
-/

namespace BtidorSyntax

/-! ## A tiny regular-expression engine

Go's `regexp.FindStringSubmatch` picks, among matches starting at the
leftmost possible position, the one a backtracking search would find first
(greedy quantifiers).  Both regexes in the sources are anchored at the
start, so the engine below only matches at position 0.  Quantifiers in
those regexes apply only to single-character classes, which the syntax
enforces.
-/

/-- Regular expressions as used by the source: literals, character classes,
greedy `*`/`+` on classes, sequencing, greedy `?`, and capture groups. -/
inductive RE where
  | eps : RE
  | lit : Char → RE
  | star : (Char → Bool) → RE
  | plus : (Char → Bool) → RE
  | seq : RE → RE → RE
  | opt : RE → RE
  | group : Nat → RE → RE

/-- Literal string as a regex (sequence of literal characters). -/
def lits (cs : List Char) : RE :=
  cs.foldr (fun c r => RE.seq (RE.lit c) r) RE.eps

/-- Capture environment: group index ↦ captured characters. -/
abbrev Caps := List (Nat × List Char)

def setCap (i : Nat) (v : List Char) (caps : Caps) : Caps :=
  (i, v) :: caps

def getCap (i : Nat) (caps : Caps) : List Char :=
  match caps.find? (fun p => p.1 = i) with
  | some p => p.2
  | none => []

/-- Try consuming `i` characters for `i = n, n-1, …, 0`, returning the
first success — the greedy order of a backtracking engine. -/
def descend (f : Nat → Option Caps) : Nat → Option Caps
  | 0 => f 0
  | n + 1 =>
    match f (n + 1) with
    | some res => some res
    | none => descend f n

/-- The backtracking matcher.  `reMatch r s caps k` tries to match `r`
against a prefix of `s`, extending captures `caps`, and calls the
continuation `k` on the remaining input; greedy alternatives are tried
longest-first, and the first overall success wins. -/
def reMatch : RE → List Char → Caps → (List Char → Caps → Option Caps) → Option Caps
  | .eps, s, caps, k => k s caps
  | .lit c, s, caps, k =>
    match s with
    | [] => none
    | x :: xs => if x = c then k xs caps else none
  | .star p, s, caps, k =>
    descend (fun i => k (s.drop i) caps) (s.takeWhile p).length
  | .plus p, s, caps, k =>
    descend (fun i => if i = 0 then none else k (s.drop i) caps)
      (s.takeWhile p).length
  | .seq a b, s, caps, k =>
    reMatch a s caps (fun s1 c1 => reMatch b s1 c1 k)
  | .opt r, s, caps, k =>
    match reMatch r s caps k with
    | some res => some res
    | none => k s caps
  | .group i r, s, caps, k =>
    reMatch r s caps (fun s1 c1 => k s1 (setCap i (s.take (s.length - s1.length)) c1))

/-- Match `r` against a prefix of `s` starting at position 0 (the regexes
modelled here begin with `^`), with no end anchor: any remainder is
accepted.  Returns the capture environment of the first match found. -/
def reFind (r : RE) (s : List Char) : Option Caps :=
  reMatch r s [] (fun _ caps => some caps)

/-! ## Character classes and Go string helpers -/

/-- Go regexp's `\s`, i.e. `[\t\n\f\r ]`. -/
def goRegexSpace (c : Char) : Bool :=
  c = '\t' || c = '\n' || c = Char.ofNat 12 || c = '\r' || c = ' '

/-- The class `[0-9]`. -/
def isDigitCh (c : Char) : Bool :=
  '0' ≤ c && c ≤ '9'

/-- The class `[0-9a-fA-F]`. -/
def isHexCh (c : Char) : Bool :=
  ('0' ≤ c && c ≤ '9') || ('a' ≤ c && c ≤ 'f') || ('A' ≤ c && c ≤ 'F')

/-- Model of `unicode.IsSpace`, the class trimmed by Go's `strings.TrimSpace`:
the White_Space code points. -/
def goIsSpace (c : Char) : Bool :=
  let n := c.toNat
  (9 ≤ n && n ≤ 13) || n = 32 || n = 0x85 || n = 0xA0 || n = 0x1680 ||
    (0x2000 ≤ n && n ≤ 0x200A) || n = 0x2028 || n = 0x2029 || n = 0x202F ||
    n = 0x205F || n = 0x3000

/-- Model of `strings.TrimSpace`: drop leading and trailing white space. -/
def goTrimSpace (cs : List Char) : List Char :=
  ((cs.dropWhile goIsSpace).reverse.dropWhile goIsSpace).reverse

/-- Model of `strings.Split(s, "\n")`: split on newlines, keeping empty pieces
(`Split` of the empty string is one empty piece). -/
def splitLines : List Char → List (List Char)
  | [] => [[]]
  | c :: cs =>
    let rest := splitLines cs
    if c = '\n' then [] :: rest
    else (c :: rest.headD []) :: rest.tail

/-- Numeric value of a digit string. -/
def digitsVal (cs : List Char) : Nat :=
  cs.foldl (fun a c => a * 10 + (c.toNat - 48)) 0

/-- Model of `strconv.Atoi` restricted to the strings it is applied to in
`ParseURIs` — non-empty `[0-9]+` matches of the regex (so no sign, no
invalid characters): the numeric value, or `ErrRange` when the value
overflows a signed 64-bit `int` (the build targets are 64-bit). -/
def goAtoi (cs : List Char) : Except String Nat :=
  let n := digitsVal cs
  if n ≤ 9223372036854775807 then .ok n
  else .error ("strconv.Atoi: parsing " ++ String.mk cs ++ ": value out of range")

/-! ## The apt URI listing parser (`convert_package.go`) -/

/-- The literal characters of the checksum clause `SHA256:`. -/
def shaLit : List Char := ['S', 'H', 'A', '2', '5', '6', ':']

/-- The regex `aptRegex`, compiled from
`^'([^']*)'\s+([^ ]+)\s+([0-9]+)(\s+SHA256:([0-9a-fA-F]+))?`.
Group 1 is the URI, group 2 the filename, group 3 the size, group 4 the
whole optional checksum clause and group 5 the hex digest. -/
def aptRE : RE :=
  .seq (.lit '\'') <|
  .seq (.group 1 (.star (fun c => !(c = '\'')))) <|
  .seq (.lit '\'') <|
  .seq (.plus goRegexSpace) <|
  .seq (.group 2 (.plus (fun c => !(c = ' ')))) <|
  .seq (.plus goRegexSpace) <|
  .seq (.group 3 (.plus isDigitCh)) <|
  .opt (.group 4 (.seq (.plus goRegexSpace)
    (.seq (lits shaLit)
      (.group 5 (.plus isHexCh)))))

/-- Model of `aptRegex.FindStringSubmatch(line)`: the `(uri, filename, size, sha256)`
submatches, with the unset optional group reported as the empty string
(`match[5]` is `""` when the checksum clause is absent). -/
def aptFind (line : List Char) : Option (List Char × List Char × List Char × List Char) :=
  match reFind aptRE line with
  | none => none
  | some caps => some (getCap 1 caps, getCap 2 caps, getCap 3 caps, getCap 5 caps)

/-- The structure `PackageDownload`: one parsed line of the URI listing. -/
structure PackageDownload where
  uri : String
  filename : String
  size : Nat
  sha256 : String
deriving DecidableEq, Repr

/-- The per-line work of `ParseURIs`: trim the line; skip it when empty;
otherwise match it against `aptRegex` (no match is a fatal error) and
convert the size with `strconv.Atoi`. -/
def parseURILine (l : List Char) : Except String (Option PackageDownload) :=
  let line := goTrimSpace l
  if line.length = 0 then .ok none
  else
    match aptFind line with
    | none => .error ("could not parse apt uri line: " ++ String.mk line)
    | some (uri, fn, szs, sha) =>
      match goAtoi szs with
      | .error e => .error e
      | .ok sz => .ok (some ⟨String.mk uri, String.mk fn, sz, String.mk sha⟩)

/-- The line loop of `ParseURIs`, in input order with the first error
aborting. -/
def parseURILoop : List (List Char) → Except String (List PackageDownload)
  | [] => .ok []
  | l :: ls =>
    match parseURILine l with
    | .error e => .error e
    | .ok none => parseURILoop ls
    | .ok (some d) =>
      match parseURILoop ls with
      | .error e => .error e
      | .ok ds => .ok (d :: ds)

/-- Model of `PackageInvocation.ParseURIs`: split the listing on newlines and parse
each non-empty trimmed line. -/
def ParseURIs (uris : String) : Except String (List PackageDownload) :=
  parseURILoop (splitLines uris.data)

instance {ε α : Type} [DecidableEq ε] [DecidableEq α] : DecidableEq (Except ε α) := fun a b =>
  match a, b with
  | .ok x, .ok y => decidable_of_iff (x = y) (by simp)
  | .error x, .error y => decidable_of_iff (x = y) (by simp)
  | .ok _, .error _ => isFalse (by simp)
  | .error _, .ok _ => isFalse (by simp)

/-! ## The LLB graph model

A shallow embedding of the `llb.State` values built by the package
extension.  A mount is `(target, source, sourcePath?, cacheDir?)` where
`cacheDir? = some (id, sharingMode)` models `llb.AsPersistentCacheDir` and
`sourcePath?` models `llb.SourcePath`.  A file-op copy action is
`(source, srcPath, destPath, mode, createDestPath)`; the `action` of a
file op is `none` when the Go code passes a nil `*llb.FileAction`.
The `dfCmd`/`location` options are source-map metadata and carry no graph
structure. -/
inductive LLB where
  | base : String → LLB
  | http : (uri filename : String) → (checksum : Option String) → LLB
  | exec : (input : LLB) → (argv : List String) → (name : String) →
      (env : List (String × String)) → (ignoreCache : Bool) →
      (mounts : List (String × LLB × Option String × Option (String × String))) → LLB
  | fileOp : (input : LLB) →
      (action : Option (List (LLB × String × String × Nat × Bool))) →
      (name : String) → LLB

/-- The filesystem input of an exec node. -/
def LLB.execInput : LLB → Option LLB
  | .exec i _ _ _ _ _ => some i
  | _ => none

/-- The argv of an exec node. -/
def LLB.execArgv : LLB → Option (List String)
  | .exec _ a _ _ _ _ => some a
  | _ => none

/-- The mounts of an exec node. -/
def LLB.execMounts : LLB → Option (List (String × LLB × Option String × Option (String × String)))
  | .exec _ _ _ _ _ m => some m
  | _ => none

/-- The copy actions of a file op (empty when the action is nil). -/
def LLB.fileActions : LLB → List (LLB × String × String × Nat × Bool)
  | .fileOp _ (some l) _ => l
  | _ => []

/-- A history entry (§4.D of the spec: created-by string and empty-layer
flag; the epoch timestamp carries no graph structure and is omitted). -/
structure HistoryEntry where
  createdBy : String
  emptyLayer : Bool
deriving DecidableEq, Repr

/-- The image config fields the package extension touches. -/
structure ImageConfig where
  shell : List String
  history : List HistoryEntry
deriving Repr

/-- The `dispatchState` fields the package extension touches. -/
structure DispatchState where
  state : LLB
  image : ImageConfig
  ignoreCache : Bool

/-- Modelled from the spec: `withShell` (in `convert.go`, not under `src/`)
wraps a shell-form command in the stage's effective shell, `/bin/sh -c` by
default (§4.D: shell-form RUN uses the effective shell set by `SHELL`). -/
def withShell (img : ImageConfig) (args : List String) : List String :=
  (if img.shell = [] then ["/bin/sh", "-c"] else img.shell) ++ args

/-- Modelled from the spec: `commitToHistory` (in `convert.go`, not under
`src/`) appends a history entry with the created-by string and the
empty-layer flag, the negation of `withLayer` (§4.D: "Every instruction
appends a history entry with: created-by string, empty-layer flag, and
epoch timestamp"). -/
def commitToHistory (img : ImageConfig) (msg : String) (withLayer : Bool) : ImageConfig :=
  { img with history := img.history ++ [⟨msg, !withLayer⟩] }

/-- Modelled from the spec: `prefixCommand` (in `convert.go`, not under
`src/`) produces the history step name for a command; the spec's §8
scenario gives the three step names of `ADD --apt nginx` literally as
`ADD (apt update) nginx` etc., so the name is the message itself. -/
def prefixCommand (msg : String) : String :=
  msg

/-- The step names precomputed by `NewPackageInvocation`:
`ADD (apt <stage>) <packages>` for update, download, install. -/
def stepName (stage : String) (pkgs : List String) : String :=
  prefixCommand ("ADD (apt " ++ stage ++ ") " ++ String.intercalate " " pkgs)

/-- The `aptions` constant: the forced apt configuration overrides. -/
def aptions : String :=
  String.intercalate " "
    ["--option Acquire::ForceHash=sha256",
     "--option Acquire::GzipIndexes=false",
     "--option Dir::Cache=/btidor.syntax/cache",
     "--option Dir::Cache::archives=archives/",
     "--option Dir::State=/btidor.syntax/state",
     "--option Dir::State::lists=lists/",
     "--yes", "--quiet"]

/-- Model of `PackageInvocation.Run`: build an Exec over `input` whose argv is the
script joined by `" && "` wrapped in the shell, with
`DEBIAN_FRONTEND=noninteractive`, the stage's ignore-cache flag and the
extra mounts, and commit it to history (empty layer unless `withLayer`).
Returns the new root and the updated image config. -/
def pkgRun (img : ImageConfig) (ignoreCache : Bool) (input : LLB) (stageName : String)
    (withLayer : Bool) (script : List String)
    (mounts : List (String × LLB × Option String × Option (String × String))) :
    LLB × ImageConfig :=
  let next := LLB.exec input (withShell img [String.intercalate " && " script]) stageName
    [("DEBIAN_FRONTEND", "noninteractive")] ignoreCache mounts
  (next, commitToHistory img stageName withLayer)

/-- Model of `PackageInvocation.DownloadFiles`: one HTTP source per entry, with the
entry's filename and, when the entry's `sha256` is non-empty, the digest
`sha256:<hex>` (`digest.NewDigestFromEncoded`); the copies are chained in
entry order into one file op named `COPY (apt packages)`, mode `0644`,
creating the destination path.  A nil action results from an empty entry
list. -/
def DownloadFiles (base : LLB) (files : List PackageDownload) (destination : String) : LLB :=
  let action := files.foldl
    (fun acc f =>
      let http := LLB.http f.uri f.filename
        (if f.sha256 = "" then none else some ("sha256:" ++ f.sha256))
      let act := (http, f.filename, destination, 0o644, true)
      match acc with
      | none => some [act]
      | some l => some (l ++ [act]))
    none
  LLB.fileOp base action "COPY (apt packages)"

/-- The first `Run` of `Dispatch`: `apt-get update` over the current stage
root, as a single `&&`-pipeline, with the cache volume mounted at
`/btidor.syntax/state` (cache id `btidor.syntax`, sharing mode shared),
committed as an empty layer. -/
def phase1 (d0 : DispatchState) (pkgs : List String) : LLB × ImageConfig :=
  pkgRun d0.image d0.ignoreCache d0.state (stepName "update" pkgs) false
    ["mkdir -p /btidor.syntax/state/lists/partial",
     "apt-get update " ++ aptions,
     "cp -r /btidor.syntax/state /btidor.syntax/backup"]
    [("/btidor.syntax/state", d0.state, none, some ("btidor.syntax", "shared"))]

/-- The second `Run` of `Dispatch`: restore the backup and run
`apt-get install -qq --print-uris` over Phase 1's output, committed as an
empty layer. -/
def phase2 (d0 : DispatchState) (pkgs : List String) : LLB × ImageConfig :=
  pkgRun (phase1 d0 pkgs).2 d0.ignoreCache (phase1 d0 pkgs).1 (stepName "download" pkgs)
    false
    ["mv /btidor.syntax/backup /btidor.syntax/state",
     "apt-get install -qq --print-uris " ++ aptions ++ " " ++
       String.intercalate " " pkgs ++ " > /btidor.syntax/install"]
    []

/-- The `DownloadFiles` accumulator of `Dispatch`: every fetched archive
copied into `/btidor.syntax/cache/archives/` of Phase 2's output. -/
def accumulator (d0 : DispatchState) (pkgs : List String)
    (uris : List PackageDownload) : LLB :=
  DownloadFiles (phase2 d0 pkgs).1 uris "/btidor.syntax/cache/archives/"

/-- The final `Run` of `Dispatch`: `apt-get install --no-download` over the
*original* stage root `d0.state`, with the accumulator mounted at
`/btidor.syntax` (source path `/btidor.syntax`), committed with a layer. -/
def phase3 (d0 : DispatchState) (pkgs : List String)
    (uris : List PackageDownload) : LLB × ImageConfig :=
  pkgRun (phase2 d0 pkgs).2 d0.ignoreCache d0.state (stepName "install" pkgs) true
    ["apt-get install --no-download " ++ aptions ++ " " ++ String.intercalate " " pkgs]
    [("/btidor.syntax", accumulator d0 pkgs uris, some "/btidor.syntax", none)]

/-- Model of `PackageInvocation.Dispatch`.  The mid-compile solve-and-read of
`/btidor.syntax/install` (`ReadFile`, which calls the external build
engine on the Phase 2 state) is passed in as `readResult`; everything else
follows `convert_package.go`: the update exec (`phase1`), the
download/print-uris exec (`phase2`), `ParseURIs` on the read-back bytes,
`DownloadFiles` (`accumulator`), then the install exec over the original
stage root (`phase3`).  A failed read or parse aborts with that error;
nothing else in the pipeline can fail. -/
def Dispatch (d0 : DispatchState) (pkgs : List String)
    (readResult : Except String String) : Except String DispatchState :=
  match readResult with
  | .error e => .error e
  | .ok data =>
    match ParseURIs data with
    | .error e => .error e
    | .ok uris =>
      .ok { state := (phase3 d0 pkgs uris).1, image := (phase3 d0 pkgs uris).2,
            ignoreCache := d0.ignoreCache }

/-! ## The instruction parser (`dockerfile/instructions`)

The embedded functions take their inputs after the AST and flag layer:
positional arguments as `List String`, flag values as the strings/booleans
`BFlags.Parse` stores (`BFlags` and the buildkit AST parser are external
collaborators, §6).  Heredoc recognition (`parser.MustParseHeredoc`) is
likewise external and passed as a predicate. -/

/-- The message of `errNoDestinationArgument`. -/
def errNoDestination (command : String) : String :=
  command ++ " requires at least two arguments, but only one was provided. " ++
    "Destination could not be determined"

/-- The structure `SourcesAndDest`: destination plus source paths; heredoc sources are
kept separately by name (their bodies come from the external AST parser
and carry no weight here). -/
structure SourcesAndDest where
  destPath : String
  sourcePaths : List String
  sourceContentNames : List String
deriving DecidableEq, Repr

/-- Model of `parseSourcesAndDest`: the last positional is the destination (a
heredoc destination is rejected); the rest are sources, partitioned into
heredoc contents and plain paths. -/
def parseSourcesAndDest (isHeredoc : String → Bool) (args : List String)
    (command : String) : Except String SourcesAndDest :=
  let srcs := args.dropLast
  let dest := (args.getLast?).getD ""
  if isHeredoc dest then
    .error (command ++ " cannot accept a heredoc as a destination")
  else
    .ok { destPath := dest,
          sourcePaths := srcs.filter (fun s => !isHeredoc s),
          sourceContentNames := srcs.filter isHeredoc }

/-- The result of `parseAdd`: a `PackageCommand` when `--apt` is set,
otherwise an `AddCommand`. -/
inductive AddParsed where
  | package (packageNames : List String)
  | add (sourcesAndDest : SourcesAndDest) (chown chmod : String)
      (link keepGitDir : Bool) (checksum : String) (unpack : Option Bool)
deriving DecidableEq, Repr

/-- Model of `parseAdd`, after `BFlags.Parse` succeeded: when the `--apt` flag is
true, all positionals become package names of a `PackageCommand` — before
any arity check; otherwise fewer than two positionals is an
argument-count error and the sources/destination are split off. -/
def parseAdd (isHeredoc : String → Bool) (args : List String) (aptFlag : Bool)
    (chown chmod : String) (link keepGitDir : Bool) (checksum : String)
    (unpackUsed : Bool) (unpackFlag : Bool) : Except String AddParsed :=
  if aptFlag then
    .ok (.package args)
  else if args.length < 2 then
    .error (errNoDestination "ADD")
  else
    match parseSourcesAndDest isHeredoc args "ADD" with
    | .error e => .error e
    | .ok sd =>
      .ok (.add sd chown chmod link keepGitDir checksum
        (if unpackUsed then some unpackFlag else none))

/-- ASCII model of `strings.ToLower` (sufficient here: the stage-name
regex only accepts ASCII, and every constant compared is ASCII). -/
def goToLowerChar (c : Char) : Char :=
  if 'A' ≤ c && c ≤ 'Z' then Char.ofNat (c.toNat + 32) else c

def goToLower (s : String) : String :=
  String.mk (s.data.map goToLowerChar)

/-- ASCII model of `strings.EqualFold`. -/
def asciiEqFold (a b : String) : Bool :=
  a.data.map goToLowerChar = b.data.map goToLowerChar

/-- The regex `validStageName = ^[a-z][a-z0-9-_.]*$` as a whole-string match
(`MatchString` with both anchors). -/
def validStageName (s : String) : Bool :=
  match s.data with
  | [] => false
  | c :: cs =>
    ('a' ≤ c && c ≤ 'z') &&
      cs.all (fun d => ('a' ≤ d && d ≤ 'z') || ('0' ≤ d && d ≤ '9') ||
        d = '-' || d = '_' || d = '.')

/-- Model of `parseBuildStageName`: the three-argument form with a case-insensitive
`as` lowercases the declared name and validates it against
`validStageName`; one argument declares no name; anything else is an
argument-count error. -/
def parseBuildStageName : List String → Except String String
  | [_, a, n] =>
    if asciiEqFold a "as" then
      let stageName := goToLower n
      if validStageName stageName then .ok stageName
      else .error ("invalid name for build stage: \"" ++ n ++
        "\", name can't start with a number or contain symbols")
    else .error "FROM requires either one or three arguments"
  | [_] => .ok ""
  | _ => .error "FROM requires either one or three arguments"

/-- A flag as stored by `BFlags`: its name and string value. -/
structure Flag where
  name : String
  value : String

/-- The constant `time.Millisecond` in nanoseconds, the `minimumDuration` of
`parseOptInterval`. -/
def minimumDuration : Int := 1000000

/-- Model of `parseOptInterval`: `0` for an empty value; otherwise the value is
parsed by `time.ParseDuration` (Go standard library, external — passed in
as `parseDuration`, durations in nanoseconds); a result of exactly `0` is
returned as `0` without error, and a non-zero result below one
millisecond is an error. -/
def parseOptInterval (parseDuration : String → Except String Int) (f : Flag) :
    Except String Int :=
  if f.value = "" then .ok 0
  else
    match parseDuration f.value with
    | .error e => .error e
    | .ok d =>
      if d = 0 then .ok 0
      else if d < minimumDuration then
        .error ("Interval \"" ++ f.name ++ "\" cannot be less than 1ms")
      else .ok d

/-- Model of `strconv.ParseInt(s, 10, 32)`: optional sign, decimal digits, range
`[-2^31, 2^31-1]`; anything else is an error. -/
def goParseInt32 (s : String) : Except String Int :=
  let core : List Char → Option Int := fun ds =>
    if ds = [] || !ds.all isDigitCh then none
    else some (Int.ofNat (digitsVal ds))
  let signed : Option Int :=
    match s.data with
    | '+' :: rest => core rest
    | '-' :: rest => (core rest).map (fun n => -n)
    | other => core other
  match signed with
  | none => .error ("strconv.ParseInt: parsing " ++ s ++ ": invalid syntax")
  | some v =>
    if v < -2147483648 || 2147483647 < v then
      .error ("strconv.ParseInt: parsing " ++ s ++ ": value out of range")
    else .ok v

/-- The health check config assembled by `parseHealthcheck`
(`dockerspec.HealthcheckConfig`; durations in nanoseconds). -/
structure HealthcheckConfig where
  test : List String
  interval : Int
  timeout : Int
  startPeriod : Int
  startInterval : Int
  retries : Int
deriving DecidableEq, Repr

/-- Model of `parseHealthcheck` for the `CMD` form, after `BFlags.Parse`: the
command words come from `handleJSONArgs` (external AST attribute handling,
summarised by `json` and `cmdArgs`); each of the four duration flags goes
through `parseOptInterval`, and a non-empty `--retries` must parse as a
non-negative `int32`. -/
def parseHealthcheckCmd (parseDuration : String → Except String Int)
    (cmdArgs : List String) (json : Bool)
    (flInterval flTimeout flStartPeriod flStartInterval flRetries : String) :
    Except String HealthcheckConfig :=
  if cmdArgs = [] then .error "Missing command after HEALTHCHECK CMD"
  else
    let typ := if json then "CMD" else "CMD-SHELL"
    let test := typ :: cmdArgs
    match parseOptInterval parseDuration ⟨"interval", flInterval⟩ with
    | .error e => .error e
    | .ok interval =>
      match parseOptInterval parseDuration ⟨"timeout", flTimeout⟩ with
      | .error e => .error e
      | .ok timeout =>
        match parseOptInterval parseDuration ⟨"start-period", flStartPeriod⟩ with
        | .error e => .error e
        | .ok startPeriod =>
          match parseOptInterval parseDuration ⟨"start-interval", flStartInterval⟩ with
          | .error e => .error e
          | .ok startInterval =>
            if flRetries = "" then
              .ok ⟨test, interval, timeout, startPeriod, startInterval, 0⟩
            else
              match goParseInt32 flRetries with
              | .error e => .error e
              | .ok retries =>
                if retries < 0 then
                  .error ("--retries cannot be negative (" ++ toString retries ++ ")")
                else
                  .ok ⟨test, interval, timeout, startPeriod, startInterval, retries⟩

/-- Lexicographic order on character lists: Go's `string` comparison is
byte-wise lexicographic, which on UTF-8 encodings coincides with
code-point-wise lexicographic order. -/
def lexLe : List Char → List Char → Bool
  | [], _ => true
  | _ :: _, [] => false
  | a :: as, b :: bs => if a < b then true else if b < a then false else lexLe as bs

/-- Go's `a <= b` on strings. -/
def goStrLe (a b : String) : Prop := lexLe a.data b.data = true

instance : DecidableRel goStrLe := fun _ _ => instDecidableEqBool _ _

/-- Model of `parseExpose`: at least one port; `slices.Sort` leaves the stored port
list in ascending lexicographic order.  `slices.Sort` produces the
permutation sorted by `goStrLe`, which is unique; `List.insertionSort`
realises it. -/
def parseExpose (args : List String) : Except String (List String) :=
  if args = [] then .error "EXPOSE requires at least one argument"
  else .ok (args.insertionSort goStrLe)

/-! ## Claim C2 — `DownloadFiles` emits the HTTP nodes in order -/

/-- The copy action `DownloadFiles` chains for one entry: an HTTP source
with the entry's URI, its filename, and its digest exactly when the
`sha256` field is non-empty. -/
def downloadAct (destination : String) (f : PackageDownload) :
    LLB × String × String × Nat × Bool :=
  (LLB.http f.uri f.filename
      (if f.sha256 = "" then none else some ("sha256:" ++ f.sha256)),
    f.filename, destination, 0o644, true)

theorem downloadFold_some (destination : String) (files : List PackageDownload)
    (l : List (LLB × String × String × Nat × Bool)) :
    files.foldl
      (fun acc f =>
        let http := LLB.http f.uri f.filename
          (if f.sha256 = "" then none else some ("sha256:" ++ f.sha256))
        let act := (http, f.filename, destination, 0o644, true)
        match acc with
        | none => some [act]
        | some l => some (l ++ [act]))
      (some l) = some (l ++ files.map (downloadAct destination)) := by
  induction files generalizing l with
  | nil => simp
  | cons f fs ih =>
    simp only [List.foldl_cons, List.map_cons]
    rw [ih]
    simp [downloadAct]

/-- C2: for every list of parsed URI entries, `DownloadFiles` emits one
HTTP source node per entry, in entry order, each carrying the entry's
filename; an entry with non-empty `sha256` carries exactly the digest
`sha256:<hex>`, and an entry with empty `sha256` carries no checksum.
(All of this is the statement `fileActions = files.map (downloadAct _)`,
with `downloadAct` spelling out the HTTP node.) -/
theorem downloadFiles_http_nodes (base : LLB) (files : List PackageDownload)
    (destination : String) :
    (DownloadFiles base files destination).fileActions =
      files.map (downloadAct destination) := by
  cases files with
  | nil => rfl
  | cons f fs =>
    simp only [DownloadFiles, List.foldl_cons, List.map_cons]
    rw [downloadFold_some]
    simp [LLB.fileActions, downloadAct]

/-! ## Claim C6 — ADD arity checking and the `--apt` escape hatch -/

/-- C6 counterexample: `ADD --apt nginx` has a single positional argument
(fewer than two), yet `parseAdd` accepts it, returning a
`PackageCommand` — the `--apt` branch returns before the arity check, so
the claim "this holds for all parsed ADD instructions, including those
carrying the `--apt` flag" is false. -/
theorem parseAdd_apt_skips_arity_cex :
    parseAdd (fun _ => false) ["nginx"] true "" "" false false "" false false =
        .ok (.package ["nginx"]) ∧
      (["nginx"] : List String).length < 2 :=
  ⟨rfl, by decide⟩

/-- C6 (amended): for an ADD with fewer than two positional arguments,
parsing without `--apt` is rejected with the argument-count error
("Destination could not be determined"), while with `--apt` it succeeds:
the positionals become the package names and no arity check applies. -/
theorem parseAdd_arity (isHeredoc : String → Bool) (args : List String)
    (aptFlag : Bool) (chown chmod : String) (link keepGitDir : Bool)
    (checksum : String) (unpackUsed unpackFlag : Bool)
    (h : args.length < 2) :
    parseAdd isHeredoc args aptFlag chown chmod link keepGitDir checksum
        unpackUsed unpackFlag =
      if aptFlag then .ok (.package args) else .error (errNoDestination "ADD") := by
  cases aptFlag with
  | true => simp [parseAdd]
  | false => simp [parseAdd, if_neg (Nat.not_lt.mpr (Nat.le_of_lt h)), h]

theorem parseAdd_arity_witness :
    parseAdd (fun _ => false) ["a.txt"] false "" "" false false "" false false =
      .error (errNoDestination "ADD") :=
  (parseAdd_arity (fun _ => false) ["a.txt"] false "" "" false false "" false false
    (by decide)).trans (by rfl)

/-! ## Claim C7 — stage names are lowercased before validation -/

/-- C7 counterexample: the declared name `FOO` does not match
`^[a-z][a-z0-9._-]*$`, yet `FROM ubuntu AS FOO` is accepted (as `foo`):
`parseBuildStageName` lowercases the name before matching, so "accepted
only if the declared name matches" is false. -/
theorem stageName_uppercase_accepted_cex :
    parseBuildStageName ["ubuntu", "as", "FOO"] = .ok "foo" ∧
      validStageName "FOO" = false :=
  ⟨rfl, by decide⟩

/-- C7 (amended): in the three-argument form (`FROM base AS name`), the
declared name is first lowercased; the instruction is accepted, yielding
the lowercased name, if and only if that lowercased name matches
`^[a-z][a-z0-9._-]*$`, and rejected with the invalid-stage-name error
otherwise. -/
theorem parseBuildStageName_lowercase (b a n : String)
    (h : asciiEqFold a "as" = true) :
    parseBuildStageName [b, a, n] =
      if validStageName (goToLower n) then .ok (goToLower n)
      else .error ("invalid name for build stage: \"" ++ n ++
        "\", name can't start with a number or contain symbols") := by
  simp [parseBuildStageName, h]

theorem parseBuildStageName_lowercase_witness :
    parseBuildStageName ["ubuntu", "AS", "Web.1"] = .ok "web.1" :=
  (parseBuildStageName_lowercase "ubuntu" "AS" "Web.1" (by decide)).trans (by rfl)

/-! ## Claim C10 — EXPOSE ports are stored sorted -/

theorem lexLe_total (a b : List Char) : lexLe a b = true ∨ lexLe b a = true := by
  induction a generalizing b with
  | nil => left; rfl
  | cons x xs ih =>
    cases b with
    | nil => right; rfl
    | cons y ys =>
      rcases lt_trichotomy x y with h | h | h
      · left; simp [lexLe, h]
      · subst h
        rcases ih ys with h2 | h2
        · left; simp [lexLe, h2]
        · right; simp [lexLe, h2]
      · right; simp [lexLe, h]

theorem lexLe_trans {a b c : List Char} (hab : lexLe a b = true)
    (hbc : lexLe b c = true) : lexLe a c = true := by
  induction a generalizing b c with
  | nil => rfl
  | cons x xs ih =>
    cases b with
    | nil => simp [lexLe] at hab
    | cons y ys =>
      cases c with
      | nil => simp [lexLe] at hbc
      | cons z zs =>
        simp only [lexLe] at hab hbc ⊢
        by_cases hxy : x < y
        · by_cases hyz : y < z
          · simp [lt_trans hxy hyz]
          · by_cases hzy : z < y
            · simp only [if_pos hyz, if_neg hyz] at hbc
              simp [if_neg (lt_asymm hzy), if_pos hzy] at hbc
            · have : y = z := le_antisymm (not_lt.mp hzy) (not_lt.mp hyz)
              subst this
              simp [hxy]
        · by_cases hyx : y < x
          · simp [if_neg hxy, if_pos hyx] at hab
          · have : x = y := le_antisymm (not_lt.mp hyx) (not_lt.mp hxy)
            subst this
            by_cases hxz : x < z
            · simp [hxz]
            · by_cases hzx : z < x
              · simp only [if_neg (lt_asymm hzx), if_pos hzx] at hbc
                exact absurd hbc (by simp)
              · simp only [if_neg hxy, if_neg hyx] at hab
                simp only [if_neg hxz, if_neg hzx] at hbc ⊢
                exact ih hab hbc

instance : IsTotal String goStrLe := ⟨fun a b => lexLe_total a.data b.data⟩

instance : IsTrans String goStrLe := ⟨fun _ _ _ => lexLe_trans⟩

/-- C10: for every non-empty EXPOSE argument list, the stored port list is
a permutation of the written ports sorted in ascending lexicographic
order (`goStrLe`) — i.e. the ports are not kept in source order. -/
theorem parseExpose_sorted (args : List String) (h : args ≠ []) :
    ∃ ps, parseExpose args = .ok ps ∧ ps.Perm args ∧ ps.Sorted goStrLe := by
  refine ⟨args.insertionSort goStrLe, by simp [parseExpose, h], ?_, ?_⟩
  · exact List.perm_insertionSort goStrLe args
  · exact List.sorted_insertionSort goStrLe args

/-- The EXPOSE ports of the spec's test Dockerfile (`EXPOSE 80/tcp
123/udp`) come back sorted, not in source order. -/
theorem parseExpose_sorted_witness :
    (∃ ps, parseExpose ["80/tcp", "123/udp"] = .ok ps ∧
        ps.Perm ["80/tcp", "123/udp"] ∧ ps.Sorted goStrLe) ∧
      parseExpose ["80/tcp", "123/udp"] = .ok ["123/udp", "80/tcp"] :=
  ⟨parseExpose_sorted ["80/tcp", "123/udp"] (by decide), by rfl⟩

/-! ## Claim C8 — healthcheck duration and retries validation -/

/-- C8 counterexample: a given `--interval` value that `time.ParseDuration`
maps to `0` (such as `"0s"`) is less than one millisecond, yet
`parseOptInterval` accepts it and returns `0` instead of rejecting it: the
code special-cases `d == 0` before the minimum check.  (The function
standing in for `time.ParseDuration` maps every input to `0`, as the
standard library does for `"0s"`.) -/
theorem healthcheck_zero_interval_cex :
    parseOptInterval (fun _ => .ok 0) ⟨"interval", "0s"⟩ = .ok 0 ∧
      ("0s" : String) ≠ "" ∧ (0 : Int) < minimumDuration :=
  ⟨rfl, by decide, by decide⟩

/-- C8 (amended): for HEALTHCHECK CMD, each duration flag that is given
and parses to a *non-zero* duration below one millisecond is rejected
(a value parsing to zero is accepted as `0`), and a `--retries` value
parsing to a negative integer is rejected.  `parseHealthcheckCmd` fails
whenever any of its four `parseOptInterval` calls fails, and whenever the
retries value is negative. -/
theorem parseHealthcheck_limits (pd : String → Except String Int)
    (cmdArgs : List String) (json : Bool) (fi ft fsp fsi fr : String) :
    (∀ name v d, v ≠ "" → pd v = .ok d → d ≠ 0 → d < minimumDuration →
      (parseOptInterval pd ⟨name, v⟩).isOk = false) ∧
    (∀ name v, pd v = .ok 0 → parseOptInterval pd ⟨name, v⟩ = .ok 0) ∧
    ((parseOptInterval pd ⟨"interval", fi⟩).isOk = false →
      (parseHealthcheckCmd pd cmdArgs json fi ft fsp fsi fr).isOk = false) ∧
    ((parseOptInterval pd ⟨"timeout", ft⟩).isOk = false →
      (parseHealthcheckCmd pd cmdArgs json fi ft fsp fsi fr).isOk = false) ∧
    ((parseOptInterval pd ⟨"start-period", fsp⟩).isOk = false →
      (parseHealthcheckCmd pd cmdArgs json fi ft fsp fsi fr).isOk = false) ∧
    ((parseOptInterval pd ⟨"start-interval", fsi⟩).isOk = false →
      (parseHealthcheckCmd pd cmdArgs json fi ft fsp fsi fr).isOk = false) ∧
    (∀ r, fr ≠ "" → goParseInt32 fr = .ok r → r < 0 →
      (parseHealthcheckCmd pd cmdArgs json fi ft fsp fsi fr).isOk = false) := by
  refine ⟨?_, ?_, ?_, ?_, ?_, ?_, ?_⟩
  · intro name v d hv hpd hd0 hdlt
    simp only [parseOptInterval, if_neg hv, hpd, if_neg hd0, if_pos hdlt]
    rfl
  · intro name v hpd
    by_cases hv : v = ""
    · simp [parseOptInterval, hv]
    · simp [parseOptInterval, hv, hpd]
  · intro hfail
    by_cases hc : cmdArgs = []
    · simp [parseHealthcheckCmd, hc, Except.isOk, Except.toBool]
    · rcases h1 : parseOptInterval pd ⟨"interval", fi⟩ with e1 | v1
      · simp [parseHealthcheckCmd, hc, h1, Except.isOk, Except.toBool]
      · rw [h1] at hfail; simp [Except.isOk, Except.toBool] at hfail
  · intro hfail
    by_cases hc : cmdArgs = []
    · simp [parseHealthcheckCmd, hc, Except.isOk, Except.toBool]
    · rcases h1 : parseOptInterval pd ⟨"interval", fi⟩ with e1 | v1
      · simp [parseHealthcheckCmd, hc, h1, Except.isOk, Except.toBool]
      · rcases h2 : parseOptInterval pd ⟨"timeout", ft⟩ with e2 | v2
        · simp [parseHealthcheckCmd, hc, h1, h2, Except.isOk, Except.toBool]
        · rw [h2] at hfail; simp [Except.isOk, Except.toBool] at hfail
  · intro hfail
    by_cases hc : cmdArgs = []
    · simp [parseHealthcheckCmd, hc, Except.isOk, Except.toBool]
    · rcases h1 : parseOptInterval pd ⟨"interval", fi⟩ with e1 | v1
      · simp [parseHealthcheckCmd, hc, h1, Except.isOk, Except.toBool]
      · rcases h2 : parseOptInterval pd ⟨"timeout", ft⟩ with e2 | v2
        · simp [parseHealthcheckCmd, hc, h1, h2, Except.isOk, Except.toBool]
        · rcases h3 : parseOptInterval pd ⟨"start-period", fsp⟩ with e3 | v3
          · simp [parseHealthcheckCmd, hc, h1, h2, h3, Except.isOk, Except.toBool]
          · rw [h3] at hfail; simp [Except.isOk, Except.toBool] at hfail
  · intro hfail
    by_cases hc : cmdArgs = []
    · simp [parseHealthcheckCmd, hc, Except.isOk, Except.toBool]
    · rcases h1 : parseOptInterval pd ⟨"interval", fi⟩ with e1 | v1
      · simp [parseHealthcheckCmd, hc, h1, Except.isOk, Except.toBool]
      · rcases h2 : parseOptInterval pd ⟨"timeout", ft⟩ with e2 | v2
        · simp [parseHealthcheckCmd, hc, h1, h2, Except.isOk, Except.toBool]
        · rcases h3 : parseOptInterval pd ⟨"start-period", fsp⟩ with e3 | v3
          · simp [parseHealthcheckCmd, hc, h1, h2, h3, Except.isOk, Except.toBool]
          · rcases h4 : parseOptInterval pd ⟨"start-interval", fsi⟩ with e4 | v4
            · simp [parseHealthcheckCmd, hc, h1, h2, h3, h4, Except.isOk, Except.toBool]
            · rw [h4] at hfail; simp [Except.isOk, Except.toBool] at hfail
  · intro r hr hpr hneg
    by_cases hc : cmdArgs = []
    · simp [parseHealthcheckCmd, hc, Except.isOk, Except.toBool]
    · rcases h1 : parseOptInterval pd ⟨"interval", fi⟩ with e1 | v1
      · simp [parseHealthcheckCmd, hc, h1, Except.isOk, Except.toBool]
      · rcases h2 : parseOptInterval pd ⟨"timeout", ft⟩ with e2 | v2
        · simp [parseHealthcheckCmd, hc, h1, h2, Except.isOk, Except.toBool]
        · rcases h3 : parseOptInterval pd ⟨"start-period", fsp⟩ with e3 | v3
          · simp [parseHealthcheckCmd, hc, h1, h2, h3, Except.isOk, Except.toBool]
          · rcases h4 : parseOptInterval pd ⟨"start-interval", fsi⟩ with e4 | v4
            · simp [parseHealthcheckCmd, hc, h1, h2, h3, h4, Except.isOk, Except.toBool]
            · simp [parseHealthcheckCmd, hc, h1, h2, h3, h4, hr, hpr, hneg,
                Except.isOk, Except.toBool]

theorem parseHealthcheck_limits_witness :
    (parseOptInterval (fun v => if v = "500us" then .ok 500000 else .error "parse")
        ⟨"interval", "500us"⟩).isOk = false ∧
    parseOptInterval (fun _ => .ok 0) ⟨"timeout", "0h"⟩ = .ok 0 ∧
    (parseHealthcheckCmd (fun v => if v = "500us" then .ok 500000 else .error "parse")
        ["curl", "-f", "http://localhost/"] true "500us" "" "" "" "").isOk = false ∧
    (parseHealthcheckCmd (fun _ => .error "parse")
        ["curl"] true "" "" "" "" "-3").isOk = false := by
  have h := parseHealthcheck_limits
    (fun v => if v = "500us" then .ok 500000 else .error "parse")
    ["curl", "-f", "http://localhost/"] true "500us" "" "" "" ""
  have h2 := parseHealthcheck_limits (fun _ => (.ok 0 : Except String Int))
    ["curl"] true "" "" "" "" ""
  have h3 := parseHealthcheck_limits (fun _ => (.error "parse" : Except String Int))
    ["curl"] true "" "" "" "" "-3"
  refine ⟨h.1 "interval" "500us" 500000 (by decide) (by rfl) (by decide) (by decide),
    h2.2.1 "timeout" "0h" rfl,
    h.2.2.1 (h.1 "interval" "500us" 500000 (by decide) (by rfl) (by decide) (by decide)),
    h3.2.2.2.2.2.2 (-3) (by decide) (by rfl) (by decide)⟩

/-! ## Claims C3, C4, C5 — the shape of the dispatched apt pipeline -/

/-- The environment every package-extension exec carries. -/
def aptEnv : List (String × String) := [("DEBIAN_FRONTEND", "noninteractive")]

/-- The Phase 1 update node as the spec describes it: over the current
stage root, a single shell pipeline that creates the partial-lists
directory, runs `apt-get update` with the apt overrides, and copies
`/btidor.syntax/state` to `/btidor.syntax/backup`; with a cache mount at
`/btidor.syntax/state`, cache id `btidor.syntax`, sharing mode shared. -/
def updateExecSpec (d0 : DispatchState) (pkgs : List String) : LLB :=
  LLB.exec d0.state
    (withShell d0.image
      ["mkdir -p /btidor.syntax/state/lists/partial && apt-get update " ++ aptions ++
        " && cp -r /btidor.syntax/state /btidor.syntax/backup"])
    (stepName "update" pkgs) aptEnv d0.ignoreCache
    [("/btidor.syntax/state", d0.state, none, some ("btidor.syntax", "shared"))]

theorem Dispatch_ok (d0 : DispatchState) (pkgs : List String) (data : String)
    (uris : List PackageDownload) (h : ParseURIs data = .ok uris) :
    Dispatch d0 pkgs (.ok data) =
      .ok { state := (phase3 d0 pkgs uris).1, image := (phase3 d0 pkgs uris).2,
            ignoreCache := d0.ignoreCache } := by
  simp only [Dispatch, h]

/-- C3: for every successful `ADD --apt` dispatch, the Phase 3b install
exec takes the *original* stage root `d0.state` as its filesystem input
(not the Phase 1/2/3a outputs), runs
`apt-get install --no-download <packages>`, and mounts the Phase 3a
accumulator (the `DownloadFiles` file op over the Phase 2 state) at
`/btidor.syntax` with source path `/btidor.syntax`; and of the three
phases committed to history only the install step is a non-empty layer. -/
theorem dispatch_install_phase (d0 : DispatchState) (pkgs : List String)
    (data : String) (uris : List PackageDownload)
    (h : ParseURIs data = .ok uris) :
    ∃ d' tmp2, Dispatch d0 pkgs (.ok data) = .ok d' ∧
      d'.state = LLB.exec d0.state
        (withShell d0.image
          ["apt-get install --no-download " ++ aptions ++ " " ++
            String.intercalate " " pkgs])
        (stepName "install" pkgs) aptEnv d0.ignoreCache
        [("/btidor.syntax", DownloadFiles tmp2 uris "/btidor.syntax/cache/archives/",
          some "/btidor.syntax", none)] ∧
      d'.image.history = d0.image.history ++
        [⟨stepName "update" pkgs, true⟩, ⟨stepName "download" pkgs, true⟩,
          ⟨stepName "install" pkgs, false⟩] := by
  refine ⟨_, (phase2 d0 pkgs).1, Dispatch_ok d0 pkgs data uris h, rfl, ?_⟩
  simp [phase3, phase2, phase1, pkgRun, commitToHistory]

theorem dispatch_install_phase_witness :
    ∃ d' tmp2,
      Dispatch ⟨LLB.base "ubuntu", ⟨[], []⟩, false⟩ ["nginx"]
          (.ok "'http://a/n.deb' n.deb 7 SHA256:ab") = .ok d' ∧
      d'.state = LLB.exec (LLB.base "ubuntu")
        (withShell ⟨[], []⟩
          ["apt-get install --no-download " ++ aptions ++ " " ++
            String.intercalate " " ["nginx"]])
        (stepName "install" ["nginx"]) aptEnv false
        [("/btidor.syntax",
          DownloadFiles tmp2 [⟨"http://a/n.deb", "n.deb", 7, "ab"⟩]
            "/btidor.syntax/cache/archives/",
          some "/btidor.syntax", none)] ∧
      d'.image.history = [] ++
        [⟨stepName "update" ["nginx"], true⟩, ⟨stepName "download" ["nginx"], true⟩,
          ⟨stepName "install" ["nginx"], false⟩] :=
  dispatch_install_phase ⟨LLB.base "ubuntu", ⟨[], []⟩, false⟩ ["nginx"]
    "'http://a/n.deb' n.deb 7 SHA256:ab" [⟨"http://a/n.deb", "n.deb", 7, "ab"⟩]
    (by rfl)

/-- C4 counterexample: a URI listing with no parseable entries (the empty
listing, which trims to no non-empty lines) does *not* fail the build:
`ParseURIs` returns the empty entry list and `Dispatch` succeeds.  No
`PackageResolutionError` exists anywhere in the code. -/
theorem dispatch_empty_listing_cex :
    ParseURIs "" = .ok [] ∧
      (Dispatch ⟨LLB.base "ubuntu", ⟨[], []⟩, false⟩ ["nginx"] (.ok "")).isOk = true :=
  ⟨rfl, rfl⟩

/-- C4 (amended): for every `ADD --apt` dispatch whose URI listing
contains no parseable entries, the dispatch *succeeds* rather than
failing: the download step becomes a file op with a nil action (no
copies), and the pipeline is emitted as usual.  Only a line that fails to
parse, or a failed read-back, aborts the build. -/
theorem dispatch_empty_listing (d0 : DispatchState) (pkgs : List String)
    (data : String) (h : ParseURIs data = .ok []) :
    ∃ d' tmp2, Dispatch d0 pkgs (.ok data) = .ok d' ∧
      d'.state.execMounts = some
        [("/btidor.syntax", LLB.fileOp tmp2 none "COPY (apt packages)",
          some "/btidor.syntax", none)] := by
  exact ⟨_, (phase2 d0 pkgs).1, Dispatch_ok d0 pkgs data [] h, rfl⟩

theorem dispatch_empty_listing_witness :
    ∃ d' tmp2,
      Dispatch ⟨LLB.base "debian", ⟨["/bin/bash", "-c"], []⟩, true⟩ ["curl"]
          (.ok "\n  \n") = .ok d' ∧
      d'.state.execMounts = some
        [("/btidor.syntax", LLB.fileOp tmp2 none "COPY (apt packages)",
          some "/btidor.syntax", none)] :=
  dispatch_empty_listing ⟨LLB.base "debian", ⟨["/bin/bash", "-c"], []⟩, true⟩
    ["curl"] "\n  \n" (by rfl)

set_option maxRecDepth 8192 in
/-- C5: for every successful `ADD --apt` dispatch, the Phase 1 update
exec of the emitted graph — the input of the download exec, which is the
input of the accumulator file op mounted into the install exec — is
exactly `updateExecSpec`: a single shell pipeline that creates the
partial-lists directory, runs `apt-get update` with the apt option
overrides and copies `/btidor.syntax/state` to `/btidor.syntax/backup`,
carrying a cache mount at `/btidor.syntax/state` with cache id
`btidor.syntax` and sharing mode `shared`. -/
theorem dispatch_update_phase (d0 : DispatchState) (pkgs : List String)
    (data : String) (uris : List PackageDownload)
    (h : ParseURIs data = .ok uris) :
    ∃ d' dlArgv, Dispatch d0 pkgs (.ok data) = .ok d' ∧
      d'.state.execMounts = some
        [("/btidor.syntax",
          DownloadFiles
            (LLB.exec (updateExecSpec d0 pkgs) dlArgv (stepName "download" pkgs)
              aptEnv d0.ignoreCache [])
            uris "/btidor.syntax/cache/archives/",
          some "/btidor.syntax", none)] := by
  exact ⟨_,
    withShell d0.image
      ["mv /btidor.syntax/backup /btidor.syntax/state && " ++
        "apt-get install -qq --print-uris " ++ aptions ++ " " ++
        String.intercalate " " pkgs ++ " > /btidor.syntax/install"],
    Dispatch_ok d0 pkgs data uris h, rfl⟩

theorem dispatch_update_phase_witness :
    ∃ d' dlArgv,
      Dispatch ⟨LLB.base "ubuntu", ⟨[], []⟩, false⟩ ["nginx"]
          (.ok "'http://a/n.deb' n.deb 7") = .ok d' ∧
      d'.state.execMounts = some
        [("/btidor.syntax",
          DownloadFiles
            (LLB.exec (updateExecSpec ⟨LLB.base "ubuntu", ⟨[], []⟩, false⟩ ["nginx"])
              dlArgv (stepName "download" ["nginx"]) aptEnv false [])
            [⟨"http://a/n.deb", "n.deb", 7, ""⟩] "/btidor.syntax/cache/archives/",
          some "/btidor.syntax", none)] :=
  dispatch_update_phase ⟨LLB.base "ubuntu", ⟨[], []⟩, false⟩ ["nginx"]
    "'http://a/n.deb' n.deb 7" [⟨"http://a/n.deb", "n.deb", 7, ""⟩] (by rfl)

/-! ## Claim C1 — `ParseURIs` line-by-line behaviour -/

/-- A trimmed line's matched size fits a signed 64-bit `int` (vacuously
true for empty or unmatched lines). -/
def lineSizeFits (l : List Char) : Bool :=
  match aptFind (goTrimSpace l) with
  | none => true
  | some (_, _, szs, _) => digitsVal szs ≤ 9223372036854775807

/-- A line is acceptable to `ParseURIs`: it trims to nothing, or it
matches `aptRegex` with a size in range. -/
def lineOk (l : List Char) : Bool :=
  goTrimSpace l = [] || ((aptFind (goTrimSpace l)).isSome && lineSizeFits l)

/-- The record a line contributes: `none` for lines that trim to nothing
or fail to match; otherwise the four submatches as a `PackageDownload`. -/
def recordOfLine (l : List Char) : Option PackageDownload :=
  match aptFind (goTrimSpace l) with
  | none => none
  | some (uri, fn, szs, sha) =>
    some ⟨String.mk uri, String.mk fn, digitsVal szs, String.mk sha⟩

theorem aptFind_nil : aptFind [] = none := rfl

theorem parseURILine_of_ok (l : List Char) (h : lineOk l = true) :
    parseURILine l = .ok (recordOfLine l) := by
  simp only [lineOk, Bool.or_eq_true, Bool.and_eq_true] at h
  rcases h with h | ⟨hsome, hfits⟩
  · have h' : goTrimSpace l = [] := by simpa using h
    simp [parseURILine, recordOfLine, h', aptFind_nil]
  · rcases hq : aptFind (goTrimSpace l) with _ | ⟨uri, fn, szs, sha⟩
    · rw [hq] at hsome; simp at hsome
    · have hne : ¬ goTrimSpace l = [] := by
        intro hl
        rw [hl, aptFind_nil] at hq
        cases hq
      have hlen : ¬ (goTrimSpace l).length = 0 :=
        fun hl => hne (List.length_eq_zero.mp hl)
      have hfits' : digitsVal szs ≤ 9223372036854775807 := by
        simp only [lineSizeFits, hq] at hfits
        simpa using hfits
      simp [parseURILine, recordOfLine, hq, goAtoi, hfits', if_neg hlen, hne]

theorem parseURILine_of_bad (l : List Char) (h : lineOk l = false) :
    (parseURILine l).isOk = false := by
  simp only [lineOk, Bool.or_eq_false_iff, Bool.and_eq_false_iff] at h
  obtain ⟨hne, hbad⟩ := h
  have hne' : ¬ goTrimSpace l = [] := by simpa using hne
  have hlen : ¬ (goTrimSpace l).length = 0 :=
    fun hl => hne' (List.length_eq_zero.mp hl)
  rcases hq : aptFind (goTrimSpace l) with _ | ⟨uri, fn, szs, sha⟩
  · simp [parseURILine, hq, if_neg hlen, hne', Except.isOk, Except.toBool]
  · rcases hbad with hbad | hbad
    · rw [hq] at hbad; simp at hbad
    · have : ¬ digitsVal szs ≤ 9223372036854775807 := by
        simp only [lineSizeFits, hq] at hbad
        simpa using hbad
      simp [parseURILine, hq, if_neg hlen, hne', goAtoi, this, Except.isOk, Except.toBool]

theorem parseURILoop_of_ok (ls : List (List Char))
    (h : ∀ l ∈ ls, lineOk l = true) :
    parseURILoop ls = .ok (ls.filterMap recordOfLine) := by
  induction ls with
  | nil => rfl
  | cons l ls ih =>
    have hl := parseURILine_of_ok l (h l (List.mem_cons_self l ls))
    have hrest := ih (fun x hx => h x (List.mem_cons_of_mem l hx))
    rcases hr : recordOfLine l with _ | d
    · rw [hr] at hl
      simp [parseURILoop, hl, hrest, List.filterMap_cons, hr]
    · rw [hr] at hl
      simp [parseURILoop, hl, hrest, List.filterMap_cons, hr]

theorem parseURILoop_of_bad (ls : List (List Char))
    (h : ∃ l ∈ ls, lineOk l = false) :
    (parseURILoop ls).isOk = false := by
  induction ls with
  | nil => simp at h
  | cons l ls ih =>
    rcases h with ⟨x, hx, hbad⟩
    rcases List.mem_cons.mp hx with hx | hx
    · subst hx
      have hl := parseURILine_of_bad x hbad
      rcases he : parseURILine x with e | v
      · simp [parseURILoop, he, Except.isOk, Except.toBool]
      · rw [he] at hl; simp [Except.isOk, Except.toBool] at hl
    · have hrest := ih ⟨x, hx, hbad⟩
      rcases he : parseURILine l with e | v
      · simp [parseURILoop, he, Except.isOk, Except.toBool]
      · rcases v with _ | d
        · simp [parseURILoop, he, hrest]
        · rcases hq : parseURILoop ls with e2 | ds
          · simp [parseURILoop, he, hq, Except.isOk, Except.toBool]
          · rw [hq] at hrest; simp [Except.isOk, Except.toBool] at hrest

/-- C1 counterexample: the line `'u' f 99999999999999999999` matches
`aptRegex` in full, yet `ParseURIs` errors on it: `strconv.Atoi` rejects
the 20-digit size as out of range, an error path the claim does not
allow for matching lines. -/
theorem parseURIs_overflow_cex :
    (aptFind (goTrimSpace ("'u' f 99999999999999999999" : String).data)).isSome = true ∧
      (ParseURIs "'u' f 99999999999999999999").isOk = false :=
  ⟨rfl, rfl⟩

/-- C1 (amended): split the listing on newlines; a line that trims to
nothing is skipped; every other line is matched against `aptRegex` and
parsed into `{uri, filename, size, sha256}`.  If every such line matches
*and every matched size fits a signed 64-bit int*, `ParseURIs` returns the
records in input-line order; if any line fails to match — or a matched
size overflows — it returns an error. -/
theorem parseURIs_lines (input : String) :
    ((∀ l ∈ splitLines input.data, lineOk l = true) →
      ParseURIs input = .ok ((splitLines input.data).filterMap recordOfLine)) ∧
    ((¬ ∀ l ∈ splitLines input.data, lineOk l = true) →
      (ParseURIs input).isOk = false) := by
  constructor
  · intro h
    exact parseURILoop_of_ok _ h
  · intro h
    rcases not_forall.mp h with ⟨l, hl⟩
    rcases Classical.not_imp.mp hl with ⟨hmem, hbad⟩
    exact parseURILoop_of_bad _ ⟨l, hmem, Bool.eq_false_iff.mpr hbad⟩

theorem parseURIs_lines_witness :
    ParseURIs "'http://a/x.deb' x.deb 10 SHA256:ab\n\n'http://b' y 5" =
      .ok [⟨"http://a/x.deb", "x.deb", 10, "ab"⟩, ⟨"http://b", "y", 5, ""⟩] := by
  rw [(parseURIs_lines "'http://a/x.deb' x.deb 10 SHA256:ab\n\n'http://b' y 5").1
    (by decide)]
  rfl

/-! ## Claim C9 — the apt regex is anchored only at the start

The lemmas below step the backtracking matcher through a string of the
shape `'URI' FILENAME SIZE [SHA256:HEX] <junk>`: each greedy class run
succeeds on its first (longest) candidate, so the engine returns the
fully-greedy parse and never looks at the junk after the match. -/

theorem descend_top {f : Nat → Option Caps} {n : Nat} {r : Caps}
    (h : f n = some r) : descend f n = some r := by
  cases n <;> simp [descend, h]

theorem descend_none {f : Nat → Option Caps} {n : Nat}
    (h : ∀ i, i ≤ n → f i = none) : descend f n = none := by
  induction n with
  | zero => simpa using h 0 (Nat.le_refl 0)
  | succ n ih =>
    simp only [descend, h (n + 1) (Nat.le_refl _)]
    exact ih (fun i hi => h i (Nat.le_succ_of_le hi))

theorem takeWhile_append_all {p : Char → Bool} {t rest : List Char}
    (h : ∀ c ∈ t, p c = true) :
    (t ++ rest).takeWhile p = t ++ rest.takeWhile p := by
  induction t with
  | nil => simp
  | cons c cs ih =>
    simp only [List.cons_append, List.takeWhile_cons, h c (List.mem_cons_self c cs),
      if_pos]
    rw [ih (fun x hx => h x (List.mem_cons_of_mem c hx))]

theorem take_sub_append (t rest : List Char) :
    (t ++ rest).take ((t ++ rest).length - rest.length) = t := by
  have hl : (t ++ rest).length - rest.length = t.length := by
    simp [List.length_append]
  rw [hl, List.take_left]

theorem reMatch_seq' {a b : RE} {s : List Char} {caps : Caps}
    {k : List Char → Caps → Option Caps} :
    reMatch (.seq a b) s caps k =
      reMatch a s caps (fun s1 c1 => reMatch b s1 c1 k) := rfl

theorem reMatch_group' {i : Nat} {r : RE} {s : List Char} {caps : Caps}
    {k : List Char → Caps → Option Caps} :
    reMatch (.group i r) s caps k =
      reMatch r s caps
        (fun s1 c1 => k s1 (setCap i (s.take (s.length - s1.length)) c1)) := rfl

theorem reMatch_litc {c : Char} {xs : List Char} {caps : Caps}
    {k : List Char → Caps → Option Caps} :
    reMatch (.lit c) (c :: xs) caps k = k xs caps := by
  simp [reMatch]

theorem reMatch_star_run {p : Char → Bool} {t rest : List Char} {caps : Caps}
    {k : List Char → Caps → Option Caps} {r : Caps}
    (hall : ∀ c ∈ t, p c = true)
    (hstop : rest.takeWhile p = [])
    (hk : k rest caps = some r) :
    reMatch (.star p) (t ++ rest) caps k = some r := by
  have htw : (t ++ rest).takeWhile p = t := by
    rw [takeWhile_append_all hall, hstop, List.append_nil]
  simp only [reMatch, htw]
  apply descend_top
  rw [List.drop_left t rest]
  exact hk

theorem reMatch_plus_run {p : Char → Bool} {t u : List Char} {caps : Caps}
    {k : List Char → Caps → Option Caps} {r : Caps}
    (hne : t ≠ [])
    (hall : ∀ c ∈ t, p c = true)
    (hstop : u.takeWhile p = [])
    (hk : k u caps = some r) :
    reMatch (.plus p) (t ++ u) caps k = some r := by
  have htw : (t ++ u).takeWhile p = t := by
    rw [takeWhile_append_all hall, hstop, List.append_nil]
  simp only [reMatch, htw]
  apply descend_top
  have hlen : ¬ t.length = 0 := by
    simpa using fun hl => hne (List.length_eq_zero.mp hl)
  rw [if_neg hlen, List.drop_left t u]
  exact hk

theorem reMatch_plus_none {p : Char → Bool} {s : List Char} {caps : Caps}
    {k : List Char → Caps → Option Caps}
    (h : ∀ i, i ≤ (s.takeWhile p).length → i ≠ 0 → k (s.drop i) caps = none) :
    reMatch (.plus p) s caps k = none := by
  simp only [reMatch]
  apply descend_none
  intro i hi
  by_cases h0 : i = 0
  · simp [h0]
  · simp [h0, h i hi h0]

theorem reMatch_opt_some {r : RE} {s : List Char} {caps : Caps}
    {k : List Char → Caps → Option Caps} {res : Caps}
    (h : reMatch r s caps k = some res) :
    reMatch (.opt r) s caps k = some res := by
  simp [reMatch, h]

theorem reMatch_opt_none {r : RE} {s : List Char} {caps : Caps}
    {k : List Char → Caps → Option Caps}
    (h : reMatch r s caps k = none) :
    reMatch (.opt r) s caps k = k s caps := by
  simp [reMatch, h]

theorem reMatch_lits_run {t rest : List Char} {caps : Caps}
    {k : List Char → Caps → Option Caps} :
    reMatch (lits t) (t ++ rest) caps k = k rest caps := by
  induction t generalizing caps with
  | nil => simp [lits, reMatch]
  | cons c cs ih =>
    simp only [lits, List.foldr_cons, List.cons_append, reMatch_seq', reMatch_litc]
    exact ih

/-- First characters that a string must have for a literal-string regex to
match. -/
def leadsWith : List Char → List Char → Bool
  | [], _ => true
  | _ :: _, [] => false
  | c :: cs, x :: xs => x = c && leadsWith cs xs

theorem reMatch_lits_fail {t s : List Char} {caps : Caps}
    {k : List Char → Caps → Option Caps}
    (h : leadsWith t s = false) :
    reMatch (lits t) s caps k = none := by
  induction t generalizing s caps with
  | nil => simp [leadsWith] at h
  | cons c cs ih =>
    cases s with
    | nil => simp [lits, reMatch]
    | cons x xs =>
      simp only [leadsWith, Bool.and_eq_false_iff] at h
      by_cases hx : x = c
      · subst hx
        rcases h with h | h
        · simp at h
        · simp only [lits, List.foldr_cons, reMatch_seq', reMatch_litc]
          exact ih h
      · simp [lits, reMatch, hx]

theorem isDigitCh_not_space {c : Char} (h : isDigitCh c = true) :
    goRegexSpace c = false := by
  simp only [isDigitCh, Bool.and_eq_true, decide_eq_true_eq, Char.le_def] at h
  obtain ⟨h1, h2⟩ := h
  have v1 : (48 : UInt32) ≤ c.val := h1
  have v2 : c.val ≤ 57 := h2
  simp only [goRegexSpace, Bool.or_eq_false_iff, decide_eq_false_iff_not, Char.ext_iff]
  refine ⟨⟨⟨⟨?_, ?_⟩, ?_⟩, ?_⟩, ?_⟩ <;> (intro hv; rw [hv] at v1 v2; revert v1 v2; decide)

theorem not_space_ne {c d : Char} (h : goRegexSpace c = false)
    (hd : goRegexSpace d = true) : ¬ c = d := by
  intro he
  rw [he, hd] at h
  cases h

theorem takeWhileLen_le {p : Char → Bool} (l : List Char) :
    (l.takeWhile p).length ≤ l.length := by
  induction l with
  | nil => simp
  | cons a as ih =>
    rw [List.takeWhile_cons]
    by_cases h : p a
    · simp only [if_pos h, List.length_cons]
      exact Nat.succ_le_succ ih
    · simp [if_neg h]

theorem takeWhile_nil_of_head {p : Char → Bool} {t rest : List Char}
    (h0 : t ≠ []) (h : ∀ c ∈ t, p c = false) :
    ((t ++ rest).takeWhile p) = [] := by
  cases t with
  | nil => exact absurd rfl h0
  | cons a as => simp [List.takeWhile_cons, h a (List.mem_cons_self a as)]

/-- The greedy parse of `'URI' FILENAME SIZE [SHA256:HEX] <junk>`:
`aptRegex` matches the prefix before the junk, and the submatches are the
components, whatever the junk (for a listing without a checksum clause,
provided the junk does not itself begin a checksum clause at a position
the whitespace quantifier can reach). -/
theorem aptFind_greedy (uri fn sz hex junk : List Char) (withSha : Bool)
    (huri : ∀ c ∈ uri, ¬ c = '\'')
    (hfn0 : fn ≠ []) (hfn : ∀ c ∈ fn, goRegexSpace c = false)
    (hsz0 : sz ≠ []) (hsz : ∀ c ∈ sz, isDigitCh c = true)
    (hhex0 : withSha = true → hex ≠ [])
    (hhex : withSha = true → ∀ c ∈ hex, isHexCh c = true)
    (hjunk : withSha = false → ∀ i, i ≤ junk.length →
      leadsWith shaLit (junk.drop i) = false) :
    aptFind ('\'' :: (uri ++ '\'' :: ' ' ::
        (fn ++ ' ' :: (sz ++ ((if withSha then ' ' :: (shaLit ++ hex) else []) ++
          ' ' :: junk))))) =
      some (uri, fn, sz, if withSha then hex else []) := by
  have p1all : ∀ c ∈ uri, (!(c = '\'')) = true := fun c hc => by
    simp [huri c hc]
  have p2all : ∀ c ∈ fn, (!(c = ' ')) = true := fun c hc => by
    simp [not_space_ne (hfn c hc) (show goRegexSpace ' ' = true from by decide)]
  have hfnstop : ∀ rest : List Char, ((fn ++ rest).takeWhile goRegexSpace) = [] := by
    intro rest
    cases fn with
    | nil => exact absurd rfl hfn0
    | cons a as =>
      simp [List.takeWhile_cons, hfn a (List.mem_cons_self a as)]
  have hszstop : ∀ rest : List Char, ((sz ++ rest).takeWhile goRegexSpace) = [] := by
    intro rest
    cases sz with
    | nil => exact absurd rfl hsz0
    | cons a as =>
      simp [List.takeWhile_cons, isDigitCh_not_space (hsz a (List.mem_cons_self a as))]
  cases withSha with
  | true =>
    simp only [if_true, eq_self_iff_true, List.cons_append, List.append_assoc]
    have hm : ∃ c4, reMatch aptRE
        ('\'' :: (uri ++ '\'' :: ' ' :: (fn ++ ' ' ::
          (sz ++ ' ' :: (shaLit ++ (hex ++ ' ' :: junk))))))
        [] (fun _ caps => some caps) =
        some ((4, c4) :: (5, hex) :: (3, sz) :: (2, fn) :: (1, uri) :: []) := by
      refine ⟨(' ' :: (shaLit ++ (hex ++ ' ' :: junk))).take
        ((' ' :: (shaLit ++ (hex ++ ' ' :: junk))).length - (' ' :: junk).length), ?_⟩
      unfold aptRE
      rw [reMatch_seq', reMatch_litc]
      try simp only []
      rw [reMatch_seq', reMatch_group']
      apply reMatch_star_run p1all (by simp [List.takeWhile_cons])
      try simp only []
      rw [take_sub_append]
      rw [reMatch_seq', reMatch_litc]
      try simp only []
      rw [reMatch_seq']
      apply reMatch_plus_run (t := [' ']) (by simp) (by decide) (hfnstop _)
      try simp only []
      rw [reMatch_seq', reMatch_group']
      apply reMatch_plus_run hfn0 p2all (by simp [List.takeWhile_cons])
      try simp only []
      rw [take_sub_append]
      rw [reMatch_seq']
      apply reMatch_plus_run (t := [' ']) (by simp) (by decide) (hszstop _)
      try simp only []
      rw [reMatch_seq', reMatch_group']
      apply reMatch_plus_run hsz0 hsz (by simp [List.takeWhile_cons, isDigitCh])
      try simp only []
      rw [take_sub_append]
      apply reMatch_opt_some
      rw [reMatch_group', reMatch_seq']
      apply reMatch_plus_run (t := [' ']) (u := shaLit ++ (hex ++ ' ' :: junk))
        (by simp) (by decide)
        (takeWhile_nil_of_head (by decide) (by decide))
      try simp only []
      rw [reMatch_seq', reMatch_lits_run]
      try simp only []
      rw [reMatch_group']
      apply reMatch_plus_run (hhex0 rfl) (hhex rfl)
        (by simp [List.takeWhile_cons, isHexCh])
      try simp only []
      rw [take_sub_append]
      simp only [setCap]
    rcases hm with ⟨c4, hm⟩
    unfold aptFind reFind
    rw [hm]
    simp [getCap, List.find?]
  | false =>
    simp only [Bool.false_eq_true, if_false, List.nil_append]
    have hm : reMatch aptRE
        ('\'' :: (uri ++ '\'' :: ' ' :: (fn ++ ' ' :: (sz ++ ' ' :: junk))))
        [] (fun _ caps => some caps) =
        some ((3, sz) :: (2, fn) :: (1, uri) :: []) := by
      unfold aptRE
      rw [reMatch_seq', reMatch_litc]
      try simp only []
      rw [reMatch_seq', reMatch_group']
      apply reMatch_star_run p1all (by simp [List.takeWhile_cons])
      try simp only []
      rw [take_sub_append]
      rw [reMatch_seq', reMatch_litc]
      try simp only []
      rw [reMatch_seq']
      apply reMatch_plus_run (t := [' ']) (by simp) (by decide) (hfnstop _)
      try simp only []
      rw [reMatch_seq', reMatch_group']
      apply reMatch_plus_run hfn0 p2all (by simp [List.takeWhile_cons])
      try simp only []
      rw [take_sub_append]
      rw [reMatch_seq']
      apply reMatch_plus_run (t := [' ']) (by simp) (by decide) (hszstop _)
      try simp only []
      rw [reMatch_seq', reMatch_group']
      apply reMatch_plus_run hsz0 hsz (by simp [List.takeWhile_cons, isDigitCh])
      try simp only []
      rw [take_sub_append]
      simp only [setCap]
      have hfail : reMatch
          (.group 4 (.seq (.plus goRegexSpace)
            (.seq (lits shaLit) (.group 5 (.plus isHexCh)))))
          (' ' :: junk) ((3, sz) :: (2, fn) :: (1, uri) :: [])
          (fun _ caps => some caps) = none := by
        rw [reMatch_group', reMatch_seq']
        apply reMatch_plus_none
        intro i hi h0
        try simp only []
        rw [reMatch_seq']
        apply reMatch_lits_fail
        obtain ⟨j, rfl⟩ := Nat.exists_eq_succ_of_ne_zero h0
        rw [List.drop_succ_cons]
        apply hjunk rfl
        have hlen : ((' ' :: junk).takeWhile goRegexSpace).length ≤ junk.length + 1 := by
          simpa using takeWhileLen_le (p := goRegexSpace) (' ' :: junk)
        omega
      rw [reMatch_opt_none hfail]
    unfold aptFind reFind
    rw [hm]
    simp [getCap, List.find?]

theorem splitLines_single (cs : List Char) (h : '\n' ∉ cs) :
    splitLines cs = [cs] := by
  induction cs with
  | nil => rfl
  | cons c cs ih =>
    have hc : ¬ c = '\n' := by
      intro he
      subst he
      exact h (List.mem_cons_self _ _)
    have ih2 := ih (fun hm => h (List.mem_cons_of_mem c hm))
    simp [splitLines, hc, ih2]

theorem goTrimSpace_eq_self (l : List Char)
    (h1 : ∀ c, l.head? = some c → goIsSpace c = false)
    (h2 : ∀ c, l.getLast? = some c → goIsSpace c = false) :
    goTrimSpace l = l := by
  have hd : l.dropWhile goIsSpace = l := by
    cases l with
    | nil => rfl
    | cons c cs => rw [List.dropWhile_cons, if_neg (by simp [h1 c rfl])]
  unfold goTrimSpace
  rw [hd]
  have hr : l.reverse.dropWhile goIsSpace = l.reverse := by
    cases hrev : l.reverse with
    | nil => rfl
    | cons c cs =>
      have hlast : l.getLast? = some c := by
        rw [← List.head?_reverse, hrev]
        rfl
      rw [List.dropWhile_cons, if_neg (by simp [h2 c hlast])]
  rw [hr, List.reverse_reverse]

/-- C9: the apt URI regex is anchored only at the start of the line.  A
line consisting of a well-formed `'URI' FILENAME SIZE [SHA256:HEX]` entry
followed by a space and arbitrary further text is accepted by `ParseURIs`,
which parses exactly the matching prefix and ignores the trailing text
(the text must not end in whitespace only so that trimming keeps the line
intact, must contain no newline so that it stays one line, and — in the
no-checksum case — must not itself continue the line as a checksum
clause). -/
theorem parseURIs_accepts_trailing_text
    (uri fn sz hex junk : List Char) (withSha : Bool)
    (huri : ∀ c ∈ uri, ¬ c = '\'' ∧ ¬ c = '\n')
    (hfn0 : fn ≠ []) (hfn : ∀ c ∈ fn, goRegexSpace c = false)
    (hsz0 : sz ≠ []) (hsz : ∀ c ∈ sz, isDigitCh c = true)
    (hszfit : digitsVal sz ≤ 9223372036854775807)
    (hhex : withSha = true → hex ≠ [] ∧ ∀ c ∈ hex, isHexCh c = true)
    (hjunk0 : junk ≠ [])
    (hjunknl : '\n' ∉ junk)
    (hjunklast : goIsSpace (junk.getLastD ' ') = false)
    (hjunksha : withSha = false → ∀ i, i ≤ junk.length →
      leadsWith shaLit (junk.drop i) = false) :
    ParseURIs (String.mk ('\'' :: (uri ++ '\'' :: ' ' ::
        (fn ++ ' ' :: (sz ++ ((if withSha then ' ' :: (shaLit ++ hex) else []) ++
          ' ' :: junk)))))) =
      .ok [⟨String.mk uri, String.mk fn, digitsVal sz,
        String.mk (if withSha then hex else [])⟩] := by
  obtain ⟨j0, js, rfl⟩ : ∃ j0 js, junk = j0 :: js := by
    cases junk with
    | nil => exact absurd rfl hjunk0
    | cons a b => exact ⟨a, b, rfl⟩
  have hfind := aptFind_greedy uri fn sz hex (j0 :: js) withSha
    (fun c hc => (huri c hc).1) hfn0 hfn hsz0 hsz
    (fun hw => (hhex hw).1) (fun hw => (hhex hw).2) hjunksha
  cases withSha with
  | true =>
    simp only [if_true, eq_self_iff_true, List.cons_append, List.append_assoc] at hfind ⊢
    have hnl : '\n' ∉ ('\'' :: (uri ++ '\'' :: ' ' ::
        (fn ++ ' ' :: (sz ++ ' ' :: (shaLit ++ (hex ++ ' ' :: (j0 :: js))))))) := by
      intro hmem
      simp only [List.mem_cons, List.mem_append] at hmem
      rcases hmem with h|h|h|h|h|h|h|h|h|h|h|h|h
      · exact absurd h (by decide)
      · exact (huri _ h).2 rfl
      · exact absurd h (by decide)
      · exact absurd h (by decide)
      · exact absurd (hfn _ h) (by decide)
      · exact absurd h (by decide)
      · exact absurd (hsz _ h) (by decide)
      · exact absurd h (by decide)
      · exact absurd h (by decide)
      · exact absurd ((hhex rfl).2 _ h) (by decide)
      · exact absurd h (by decide)
      · exact hjunknl (by rw [h]; exact List.mem_cons_self _ _)
      · exact hjunknl (List.mem_cons_of_mem _ h)
    have hlast : ('\'' :: (uri ++ '\'' :: ' ' ::
        (fn ++ ' ' :: (sz ++ ' ' :: (shaLit ++ (hex ++ ' ' :: (j0 :: js))))))).getLast? =
        (j0 :: js).getLast? := by
      show (((['\''] ++ uri)) ++ '\'' :: (' ' ::
        (fn ++ ' ' :: (sz ++ ' ' :: (shaLit ++ (hex ++ ' ' :: (j0 :: js))))))).getLast? = _
      rw [List.getLast?_append_cons]
      show ((['\'', ' '] ++ fn) ++ ' ' :: (sz ++ ' ' ::
        (shaLit ++ (hex ++ ' ' :: (j0 :: js))))).getLast? = _
      rw [List.getLast?_append_cons]
      show (([' '] ++ sz) ++ ' ' :: (shaLit ++ (hex ++ ' ' :: (j0 :: js)))).getLast? = _
      rw [List.getLast?_append_cons]
      show ((([' '] ++ shaLit) ++ hex) ++ ' ' :: (j0 :: js)).getLast? = _
      rw [List.getLast?_append_cons]
      show (([' '] ++ (j0 :: js))).getLast? = _
      rw [show ([' '] ++ (j0 :: js)) = [' '] ++ j0 :: js from rfl, List.getLast?_append_cons]
    have htrim : goTrimSpace ('\'' :: (uri ++ '\'' :: ' ' ::
        (fn ++ ' ' :: (sz ++ ' ' :: (shaLit ++ (hex ++ ' ' :: (j0 :: js))))))) =
        ('\'' :: (uri ++ '\'' :: ' ' ::
        (fn ++ ' ' :: (sz ++ ' ' :: (shaLit ++ (hex ++ ' ' :: (j0 :: js))))))) := by
      apply goTrimSpace_eq_self
      · intro c hc
        cases hc
        decide
      · intro c hc
        rw [hlast] at hc
        rw [List.getLastD_eq_getLast?, hc] at hjunklast
        simpa using hjunklast
    show parseURILoop (splitLines ('\'' :: (uri ++ '\'' :: ' ' ::
        (fn ++ ' ' :: (sz ++ ' ' :: (shaLit ++ (hex ++ ' ' :: (j0 :: js)))))))) = _
    rw [splitLines_single _ hnl]
    simp [parseURILoop, parseURILine, htrim, hfind, goAtoi, hszfit]
  | false =>
    simp only [Bool.false_eq_true, if_false, List.nil_append] at hfind ⊢
    have hnl : '\n' ∉ ('\'' :: (uri ++ '\'' :: ' ' ::
        (fn ++ ' ' :: (sz ++ ' ' :: (j0 :: js))))) := by
      intro hmem
      simp only [List.mem_cons, List.mem_append] at hmem
      rcases hmem with h|h|h|h|h|h|h|h|h|h
      · exact absurd h (by decide)
      · exact (huri _ h).2 rfl
      · exact absurd h (by decide)
      · exact absurd h (by decide)
      · exact absurd (hfn _ h) (by decide)
      · exact absurd h (by decide)
      · exact absurd (hsz _ h) (by decide)
      · exact absurd h (by decide)
      · exact hjunknl (by rw [h]; exact List.mem_cons_self _ _)
      · exact hjunknl (List.mem_cons_of_mem _ h)
    have hlast : ('\'' :: (uri ++ '\'' :: ' ' ::
        (fn ++ ' ' :: (sz ++ ' ' :: (j0 :: js))))).getLast? =
        (j0 :: js).getLast? := by
      show (((['\''] ++ uri)) ++ '\'' :: (' ' ::
        (fn ++ ' ' :: (sz ++ ' ' :: (j0 :: js))))).getLast? = _
      rw [List.getLast?_append_cons]
      show ((['\'', ' '] ++ fn) ++ ' ' :: (sz ++ ' ' :: (j0 :: js))).getLast? = _
      rw [List.getLast?_append_cons]
      show (([' '] ++ sz) ++ ' ' :: (j0 :: js)).getLast? = _
      rw [List.getLast?_append_cons]
      show (([' '] ++ (j0 :: js))).getLast? = _
      rw [show ([' '] ++ (j0 :: js)) = [' '] ++ j0 :: js from rfl, List.getLast?_append_cons]
    have htrim : goTrimSpace ('\'' :: (uri ++ '\'' :: ' ' ::
        (fn ++ ' ' :: (sz ++ ' ' :: (j0 :: js))))) =
        ('\'' :: (uri ++ '\'' :: ' ' ::
        (fn ++ ' ' :: (sz ++ ' ' :: (j0 :: js))))) := by
      apply goTrimSpace_eq_self
      · intro c hc
        cases hc
        decide
      · intro c hc
        rw [hlast] at hc
        rw [List.getLastD_eq_getLast?, hc] at hjunklast
        simpa using hjunklast
    show parseURILoop (splitLines ('\'' :: (uri ++ '\'' :: ' ' ::
        (fn ++ ' ' :: (sz ++ ' ' :: (j0 :: js)))))) = _
    rw [splitLines_single _ hnl]
    simp [parseURILoop, parseURILine, htrim, hfind, goAtoi, hszfit]

set_option maxRecDepth 16384 in
theorem parseURIs_accepts_trailing_text_witness :
    ParseURIs "'http://e/a.deb' a.deb 42 SHA256:ab and some! trailing junk" =
      .ok [⟨"http://e/a.deb", "a.deb", 42, "ab"⟩] := by
  have h := parseURIs_accepts_trailing_text
    ("http://e/a.deb".data) ("a.deb".data) ("42".data) ("ab".data)
    ("and some! trailing junk".data) true
    (by decide) (by decide) (by decide) (by decide) (by decide) (by decide)
    (by decide) (by decide) (by decide) (by decide) (by decide)
  exact h.trans (by rfl)

end BtidorSyntax